import Mathlib

/-!
Shallow embedding of src/syncmeg3.py (an MKV audio/video duration
resynchronization tool) and verification of its specification claims.

Modelling conventions:
* Every duration the program computes is a Python float rounded to 4
  decimal places, hence an exact multiple of one ten-thousandth. Durations
  are therefore embedded in fixed point, as the integer number of
  ten-thousandths of a second: the integer z stands for the float value
  z / 10000. This carries exactly the information of the rounded float,
  makes every program computation executable, and the order on the
  integers is the order on the float values. The bridge lemmas relate the
  fixed-point rounding to the rational rounding function round4.
* The two external processes (the inspection run of mkvmerge -J and the
  remux run) are modelled by an environment that maps an input to the
  behaviour of the spawned process: either a spawn exception or a completed
  process with exit code, a JSON parse of stdout, and stderr text.
* json.loads is modelled at its result boundary: the environment provides
  either a parsed JSON value or a decode failure for the inspection stdout.
* write_log calls are modelled as a list of appended log entries returned
  alongside each result; the log sink itself is assumed writable, matching
  the specification, which treats it as an append-only external sink.
* Python exceptions are modelled as error values on the channels where the
  source can raise (process spawn, JSON decode, attribute errors from .get
  on non-dict values, iteration of non-iterable values); every handler of
  the source is embedded where the corresponding try/except sits.
-/

/-- JSON values, the shape of the parsed mkvmerge -J output. -/
inductive JVal where
  | null
  | bool (b : Bool)
  | num (q : ℚ)
  | str (s : String)
  | arr (elems : List JVal)
  | obj (fields : List (String × JVal))

/-- One write_log call. The source writes either the error line produced
inside parse_duration_to_seconds (line 33) or a single message block from
sync_audio_video (lines 76, 95, 99, 103, 107, 110). -/
inductive LogEntry where
  | parseError (offending : JVal)
  | entry (message : String)

/-- True exactly on the parse-error log line written by
parse_duration_to_seconds. -/
def isParseErr : LogEntry → Bool
  | .parseError _ => true
  | .entry _ => false

/-- True exactly on a log entry written by sync_audio_video itself. -/
def isOutcomeEntry : LogEntry → Bool
  | .parseError _ => false
  | .entry _ => true

/-- Result of a completed subprocess.run call: exit code, the JSON parse of
its captured stdout (only consulted for the inspection call), and its
captured stderr. -/
structure RunResult where
  returncode : Int
  stdoutJson : Except String JVal
  stderr : String

/-- Behaviour of one spawned external process: the spawn itself may raise,
or the process runs to completion. -/
inductive ProcResult where
  | raised (msg : String)
  | completed (r : RunResult)

/-- The environment of external collaborators: whether mkvmerge.exe exists
next to the current working directory, the working directory itself, and
the behaviour of the inspection and remux process invocations. -/
structure Env where
  mkvmergeExists : Bool
  cwd : String
  inspectRun : String → ProcResult
  remuxRun : List String → ProcResult

/-- Split a character list at every occurrence of a separator, like the
Python str.split method with an explicit separator: empty pieces are kept
and a list with no separator yields one piece. -/
def splitOnChar (c : Char) : List Char → List (List Char)
  | [] => [[]]
  | x :: xs =>
    if x = c then [] :: splitOnChar c xs
    else
      match splitOnChar c xs with
      | [] => [[x]]
      | y :: ys => (x :: y) :: ys

/-- Numeric value of a digit list, most significant first. -/
def digitsToNat (l : List Char) : ℕ :=
  l.foldl (fun acc c => 10 * acc + (c.toNat - 48)) 0

/-- The Python int constructor on a string, restricted to the fragment the
program can meet: an optional sign followed by decimal digits. Surrounding
whitespace and digit-group underscores, which Python also accepts, are not
modelled; none of the claims depends on them. Returns none where Python
raises ValueError. -/
def pyIntCore (l : List Char) : Option ℤ :=
  match l with
  | [] => none
  | c :: rest =>
    if c = '-' then
      if rest ≠ [] ∧ rest.all Char.isDigit then some (-(digitsToNat rest : ℤ)) else none
    else if c = '+' then
      if rest ≠ [] ∧ rest.all Char.isDigit then some ((digitsToNat rest : ℤ)) else none
    else
      if (c :: rest).all Char.isDigit then some ((digitsToNat (c :: rest) : ℤ)) else none

/-- Magnitude part of a Python float literal: digits with an optional
decimal point, at least one digit overall. Returns the exact value of the
literal as a numerator together with its power-of-ten denominator. -/
def pyFloatMag (l : List Char) : Option (ℤ × ℤ) :=
  match splitOnChar '.' l with
  | [intp] =>
    if intp ≠ [] ∧ intp.all Char.isDigit then some ((digitsToNat intp : ℤ), 1) else none
  | [intp, frac] =>
    if (intp ++ frac) ≠ [] ∧ intp.all Char.isDigit ∧ frac.all Char.isDigit then
      some ((digitsToNat intp * 10 ^ frac.length + digitsToNat frac : ℤ), (10 ^ frac.length : ℤ))
    else none
  | _ => none

/-- The Python float constructor on a string, restricted to the fragment
the program can meet: optional sign, digits, optional fractional part.
Exponent notation, infinities, NaN and surrounding whitespace are not
modelled; none of the claims depends on them. The value of the float is
returned as an exact fraction, numerator over positive power-of-ten
denominator. Returns none where Python raises ValueError. -/
def pyFloatCore (l : List Char) : Option (ℤ × ℤ) :=
  match l with
  | [] => none
  | c :: rest =>
    if c = '-' then (pyFloatMag rest).map (fun nd => (-nd.1, nd.2))
    else if c = '+' then pyFloatMag rest
    else pyFloatMag (c :: rest)

/-- Round a rational to the nearest integer, ties to even, the rounding of
the Python built-in round. Used to state the specification claims. -/
def roundHalfEven (x : ℚ) : ℤ :=
  let f : ℤ := ⌊x⌋
  let r : ℚ := x - f
  if r < 1/2 then f
  else if 1/2 < r then f + 1
  else if f % 2 = 0 then f else f + 1

/-- round(x, 4) of the source, line 31, as a function on exact rationals:
keep four decimal places, ties to even. Used to state the claims. -/
def round4 (x : ℚ) : ℚ := ((roundHalfEven (x * 10000) : ℚ)) / 10000

/-- Round the fraction p / q, with q positive, to the nearest integer,
ties to even: the executable fixed-point form of roundHalfEven. -/
def rheFrac (p q : ℤ) : ℤ :=
  let f := p.fdiv q
  let r := p - f * q
  if 2 * r < q then f
  else if q < 2 * r then f + 1
  else if f % 2 = 0 then f else f + 1

/-- Lines 16 to 34 of the source: split a duration string on the colon,
require exactly three parts, convert hours and minutes with int and the
seconds with float, sum and round to four decimal places. The rounded
float is returned in fixed point, as its integer number of ten-thousandths
of a second. Any failure is caught, logged (one write_log call) and turned
into None. -/
def parse_duration_to_seconds (duration : String) : Option ℤ × List LogEntry :=
  match splitOnChar ':' duration.data with
  | [h, m, s] =>
    match pyIntCore h, pyIntCore m, pyFloatCore s with
    | some hours, some minutes, some nd =>
      (some (rheFrac (((hours * 3600 + minutes * 60) * nd.2 + nd.1) * 10000) nd.2), [])
    | _, _, _ => (none, [.parseError (.str duration)])
  | _ => (none, [.parseError (.str duration)])

/-- parse_duration_to_seconds applied to an arbitrary JSON value, as the
source does at line 61: a non-string argument makes duration.split raise
inside the try of parse_duration_to_seconds, which logs and returns None. -/
def parseJ : JVal → Option ℤ × List LogEntry
  | .str s => parse_duration_to_seconds s
  | v => (none, [.parseError v])

/-- The Python dict.get method with a default, as used at lines 54, 58, 59:
on a dict it looks the key up, on any other value the attribute access
raises AttributeError. -/
def pyGet (v : JVal) (key : String) (dflt : JVal) : Except String JVal :=
  match v with
  | .obj kvs => .ok ((kvs.lookup key).getD dflt)
  | _ => .error "AttributeError: object has no attribute get"

/-- Python iteration over a JSON value, as the for loop at line 57 does:
lists yield their elements, dicts their keys, strings their characters,
and every other value raises TypeError. -/
def pyIter : JVal → Except String (List JVal)
  | .arr xs => .ok xs
  | .obj kvs => .ok (kvs.map (fun kv => .str kv.1))
  | .str s => .ok (s.data.map (fun ch => .str (String.mk [ch])))
  | _ => .error "TypeError: object is not iterable"

/-- Python equality between an arbitrary value and a string literal, as in
lines 60, 62, 64: true exactly when the value is that very string. -/
def jEqStr : JVal → String → Bool
  | .str s, t => s == t
  | _, _ => false

/-- Total counterpart of pyGet used only to state properties about track
lists on which the extraction loop is known not to raise. -/
def jGetD (v : JVal) (key : String) (dflt : JVal) : JVal :=
  match v with
  | .obj kvs => (kvs.lookup key).getD dflt
  | _ => dflt

/-- The tag_duration property of a track object, with the same defaults the
source uses at line 59. -/
def tagOf (t : JVal) : JVal :=
  jGetD (jGetD t "properties" (.obj [])) "tag_duration" (.str "unknown")

/-- A track whose type property equals the given string and whose
tag_duration is present and not the literal string unknown: exactly the
tracks whose duration the loop at lines 57 to 65 assigns. -/
def isTaggedOfType (ty : String) (t : JVal) : Bool :=
  jEqStr (jGetD t "type" (.str "unknown")) ty && !(jEqStr (tagOf t) "unknown")

/-- The last track of the list satisfying isTaggedOfType, if any. -/
def lastTagged (ty : String) : List JVal → Option JVal
  | [] => none
  | t :: ts =>
    match lastTagged ty ts with
    | some u => some u
    | none => if isTaggedOfType ty t then some t else none

/-- The for loop of lines 57 to 65: threading the video and audio slots and
the log entries written by failed duration parses through the track list.
The fourth component is the pending exception, none while no .get call has
raised; on the first raise the loop stops and the exception propagates to
the except handler of get_tag_durations_and_seconds. -/
def scanTracks : List JVal → Option ℤ → Option ℤ → List LogEntry →
    Option ℤ × Option ℤ × List LogEntry × Option String
  | [], v, a, logs => (v, a, logs, none)
  | t :: ts, v, a, logs =>
    match pyGet t "type" (.str "unknown") with
    | .error e => (v, a, logs, some e)
    | .ok ttype =>
      match pyGet t "properties" (.obj []) with
      | .error e => (v, a, logs, some e)
      | .ok props =>
        match pyGet props "tag_duration" (.str "unknown") with
        | .error e => (v, a, logs, some e)
        | .ok tag =>
          if jEqStr tag "unknown" then scanTracks ts v a logs
          else
            if jEqStr ttype "video" then
              scanTracks ts (parseJ tag).1 a (logs ++ (parseJ tag).2)
            else if jEqStr ttype "audio" then
              scanTracks ts v (parseJ tag).1 (logs ++ (parseJ tag).2)
            else
              scanTracks ts v a (logs ++ (parseJ tag).2)

/-- The number of malformed duration tags the loop of lines 57 to 65
meets: tracks processed before any exception whose tag_duration property
is present, not the literal string unknown, and fails to parse. Each such
track makes parse_duration_to_seconds write exactly one log line, so this
count is the number of parse-error log entries of one extraction. Used to
state the claims. -/
def malformedTags : List JVal → ℕ
  | [] => 0
  | t :: ts =>
    match pyGet t "type" (.str "unknown") with
    | .error _ => 0
    | .ok _ =>
      match pyGet t "properties" (.obj []) with
      | .error _ => 0
      | .ok props =>
        match pyGet props "tag_duration" (.str "unknown") with
        | .error _ => 0
        | .ok tag =>
          if jEqStr tag "unknown" then malformedTags ts
          else (if (parseJ tag).1 = none then 1 else 0) + malformedTags ts

/-- Result of get_tag_durations_and_seconds: the triple the source returns
plus the log entries written while it ran. -/
structure ExtractOut where
  video : Option ℤ
  audio : Option ℤ
  error : Option String
  logs : List LogEntry

/-- ntpath.join for the path shapes the program builds: no drive-relative
handling, which the claims never exercise. -/
def pyJoin (a b : String) : String :=
  if a = "" then b
  else if a.data.getLast? = some '\\' ∨ a.data.getLast? = some '/' then a ++ b
  else a ++ "\\" ++ b

/-- os.path.join(os.getcwd(), the mkvmerge executable name), computed at
lines 38 and 84. -/
def mkvmergePath (env : Env) : String := pyJoin env.cwd "mkvmerge.exe"

/-- Lines 36 to 70 of the source. The early isfile check, the inspection
subprocess call, the exit code check, the JSON decode of stdout, the track
list lookup and the track loop; every exception raised inside the try is
caught and converted into the error component of the returned triple. -/
def get_tag_durations_and_seconds (env : Env) (mkv_file : String) : ExtractOut :=
  if env.mkvmergeExists = false then
    ⟨none, none, some "Error: mkvmerge.exe not found in the current directory.", []⟩
  else
    match env.inspectRun mkv_file with
    | .raised e => ⟨none, none, some ("Error processing mkvmerge output: " ++ e), []⟩
    | .completed r =>
      if r.returncode ≠ 0 then
        ⟨none, none, some ("Error running mkvmerge: " ++ r.stderr), []⟩
      else
        match r.stdoutJson with
        | .error e => ⟨none, none, some ("Error processing mkvmerge output: " ++ e), []⟩
        | .ok info =>
          match pyGet info "tracks" (.arr []) with
          | .error e => ⟨none, none, some ("Error processing mkvmerge output: " ++ e), []⟩
          | .ok tracksVal =>
            match pyIter tracksVal with
            | .error e => ⟨none, none, some ("Error processing mkvmerge output: " ++ e), []⟩
            | .ok tracks =>
              match scanTracks tracks none none [] with
              | (v, a, logs, none) => ⟨v, a, none, logs⟩
              | (_, _, logs, some e) =>
                ⟨none, none, some ("Error processing mkvmerge output: " ++ e), logs⟩

/-- Index of the last occurrence of a character in a list, if any. -/
def rfindAux (c : Char) : List Char → Option ℕ
  | [] => none
  | x :: xs =>
    match rfindAux c xs with
    | some i => some (i + 1)
    | none => if x = c then some 0 else none

/-- Last index of a character in a list, minus one if absent: the Python
str.rfind used by ntpath.splitext. -/
def rfindChar (c : Char) (l : List Char) : Int :=
  match rfindAux c l with
  | none => -1
  | some i => (i : ℤ)

/-- ntpath.splitext on a character list, the os.path.splitext the source
calls at line 82 on Windows: find the last path separator (either slash)
and the last dot; the dot starts an extension only if it lies after the
separator and some character of the final component before it is not a
dot, so that leading dots of a hidden file are part of the root. -/
def splitextList (p : List Char) : List Char × List Char :=
  let sepIndex := max (rfindChar '\\' p) (rfindChar '/' p)
  let dotIndex := rfindChar '.' p
  if dotIndex > sepIndex then
    let fnameStart := (sepIndex + 1).toNat
    let body := (p.drop fnameStart).take (dotIndex.toNat - fnameStart)
    if body.any (fun ch => ch ≠ '.') then (p.take dotIndex.toNat, p.drop dotIndex.toNat)
    else (p, [])
  else (p, [])

/-- os.path.splitext on strings. -/
def splitext (s : String) : String × String :=
  (String.mk (splitextList s.data).1, String.mk (splitextList s.data).2)

/-- Lines 82 and 83 of the source: the derived output path, root plus the
literal marker plus the extension. The specification names this operation
insertSuffix. -/
def insertSuffix (p : String) : String :=
  (splitext p).1 ++ "_1" ++ (splitext p).2

/-- The four decimal digits of a natural number below 10000, most
significant first. -/
def fracDigits4 (n : ℕ) : List Char :=
  [Char.ofNat (48 + n / 1000 % 10), Char.ofNat (48 + n / 100 % 10),
   Char.ofNat (48 + n / 10 % 10), Char.ofNat (48 + n % 10)]

/-- Drop trailing zero digits. -/
def trimTrailingZeros (l : List Char) : List Char :=
  (l.reverse.dropWhile (fun c => c = '0')).reverse

/-- The decimal rendering Python f-strings give the programs float values,
on the fixed-point representation: the argument is the duration in
ten-thousandths of a second. Every duration the program interpolates went
through rounding to four decimals, so its shortest float representation is
its plain decimal form: integer part, a dot and the fractional digits
without trailing zeros, with a .0 kept for whole numbers. -/
def pyFloatRepr (z : ℤ) : String :=
  let sgn : String := if z < 0 then "-" else ""
  let n : ℕ := z.natAbs
  if n % 10000 = 0 then sgn ++ toString (n / 10000) ++ ".0"
  else sgn ++ toString (n / 10000) ++ "." ++ String.mk (trimTrailingZeros (fracDigits4 (n % 10000)))

/-- Python str of an optional duration, as interpolated at line 79: the
value or the word None. -/
def optStr : Option ℤ → String
  | none => "None"
  | some z => pyFloatRepr z

/-- Boolean string prefix test used to classify outcome messages. -/
def msgStarts (pre m : String) : Bool :=
  decide (m.data.take pre.data.length = pre.data)

/-- Result of processing one file: the returned outcome message, the log
entries appended while processing it, and the remux commands the function
handed to subprocess.run. -/
structure SyncResult where
  message : String
  logs : List LogEntry
  remuxCalls : List (List String)

/-- Lines 74 to 111 of the source given the extraction result: on an
extraction error log and return the error message; otherwise build the
block header, and when both durations are present and the video one is
strictly smaller, build the remux command and run it, classifying exit
code zero as success, a nonzero exit as an error with the captured stderr,
and a spawn exception as an execution error; when the video duration is
not smaller, skip; when either duration is missing, report that the
durations are unavailable. Exactly one write_log call happens here on
every path. -/
def syncWithEx (env : Env) (input_file : String) (ex : ExtractOut) : SyncResult :=
  match ex.error with
  | some err =>
    { message := "Error processing " ++ input_file ++ ": " ++ err
      logs := ex.logs ++ [.entry ("Error processing " ++ input_file ++ ": " ++ err)]
      remuxCalls := [] }
  | none =>
    let log0 := "File: " ++ input_file ++ "\nVideo Time: " ++ optStr ex.video ++
      " s\nAudio Time: " ++ optStr ex.audio ++ " s\n"
    match ex.video, ex.audio with
    | some video_time, some audio_time =>
      if video_time < audio_time then
        let output_file := insertSuffix input_file
        let cmd := [mkvmergePath env, "-o", output_file, "--sync",
          "1:0," ++ pyFloatRepr video_time ++ "/" ++ pyFloatRepr audio_time, input_file]
        match env.remuxRun cmd with
        | .raised e =>
          { message := "Error executing mkvmerge for " ++ input_file ++ ": " ++ e
            logs := ex.logs ++ [.entry (log0 ++ "Error: " ++ e ++ "\n")]
            remuxCalls := [cmd] }
        | .completed r =>
          if r.returncode = 0 then
            { message := "Success: " ++ input_file ++ " -> " ++ output_file
              logs := ex.logs ++
                [.entry (log0 ++ "Rule: video_time < audio_time\nGenerated File: " ++ output_file ++ "\n")]
              remuxCalls := [cmd] }
          else
            { message := "Error processing " ++ input_file ++ ": " ++ r.stderr
              logs := ex.logs ++ [.entry (log0 ++ "Error: " ++ r.stderr ++ "\n")]
              remuxCalls := [cmd] }
      else
        { message := "Skipped: " ++ input_file ++ " (video_time == audio_time)"
          logs := ex.logs ++ [.entry (log0 ++ "Rule: video_time == audio_time\nSkipped\n")]
          remuxCalls := [] }
    | _, _ =>
      { message := "Error: Unable to retrieve durations for " ++ input_file
        logs := ex.logs ++ [.entry (log0 ++ "Error: Unable to retrieve durations\n")]
        remuxCalls := [] }

/-- Lines 72 to 111 of the source: extract the durations, then decide and
act on them. -/
def sync_audio_video (env : Env) (input_file : String) : SyncResult :=
  syncWithEx env input_file (get_tag_durations_and_seconds env input_file)

/-- Lines 113 to 121 of the source: walk the directory listing in order,
keep the names whose lowercase form ends in .mkv, process each and collect
the outcome messages. The listing argument models os.listdir(folder_path)
in directory order. -/
def process_folder (env : Env) (folder_path : String) (listing : List String) : List String :=
  listing.foldl
    (fun results file =>
      if (file.toLower).endsWith ".mkv" then
        results ++ [(sync_audio_video env (pyJoin folder_path file)).message]
      else results)
    []

/-- A track object of the inspection JSON with the given type and
tag_duration strings. -/
def jTrack (ty dur : String) : JVal :=
  .obj [("type", .str ty), ("properties", .obj [("tag_duration", .str dur)])]

/-- An environment where mkvmerge.exe exists, the inspection call succeeds
with the given track list, and the remux call exits with code zero. -/
def mkEnv (tracks : List JVal) : Env :=
  { mkvmergeExists := true
    cwd := "C:\\work"
    inspectRun := fun _ =>
      .completed { returncode := 0, stdoutJson := .ok (.obj [("tracks", .arr tracks)]), stderr := "" }
    remuxRun := fun _ => .completed { returncode := 0, stdoutJson := .ok .null, stderr := "" } }

/-- One video track of one second and one audio track of two seconds. -/
def envAV : Env := mkEnv [jTrack "video" "0:00:01", jTrack "audio" "0:00:02"]

/-- Two tagged video tracks of one and two seconds. -/
def envTwoVideo : Env := mkEnv [jTrack "video" "0:00:01", jTrack "video" "0:00:02"]

/-- An empty track list: extraction succeeds with both durations absent. -/
def envNoTracks : Env := mkEnv []

/-- One video track whose tag_duration does not parse. -/
def envBadTag : Env := mkEnv [jTrack "video" "bogus"]

/-! Helper lemmas. -/

theorem strDataAppend : ∀ a b : String, (a ++ b).data = a.data ++ b.data
  | ⟨_⟩, ⟨_⟩ => rfl

theorem splitextList_append (p : List Char) :
    (splitextList p).1 ++ (splitextList p).2 = p := by
  simp only [splitextList]
  split
  · split
    · exact List.take_append_drop _ _
    · simp
  · simp

theorem string_mk_data (s : String) : String.mk s.data = s := rfl

theorem splitext_append (p : String) : (splitext p).1 ++ (splitext p).2 = p := by
  show String.mk (splitextList p.data).1 ++ String.mk (splitextList p.data).2 = p
  show String.mk ((splitextList p.data).1 ++ (splitextList p.data).2) = p
  rw [splitextList_append]

theorem insertSuffix_data (p : String) :
    (insertSuffix p).data = (splitextList p.data).1 ++ ('_' :: '1' :: (splitextList p.data).2) := by
  show ((String.mk (splitextList p.data).1 ++ "_1") ++ String.mk (splitextList p.data).2).data = _
  rw [strDataAppend, strDataAppend]
  simp

theorem insertSuffix_ne (p : String) : insertSuffix p ≠ p := by
  intro h
  have hd := congrArg String.data h
  rw [insertSuffix_data] at hd
  have hlen := congrArg List.length hd
  have hsplit := congrArg List.length (splitextList_append p.data)
  simp [List.length_append] at hlen hsplit
  omega

theorem rfindAux_get (c : Char) :
    ∀ (l : List Char) (i : ℕ), rfindAux c l = some i → l[i]? = some c := by
  intro l
  induction l with
  | nil => intro i h; simp [rfindAux] at h
  | cons x xs ih =>
    intro i h
    simp only [rfindAux] at h
    cases hr : rfindAux c xs with
    | some j =>
      rw [hr] at h
      cases h
      simpa using ih j hr
    | none =>
      rw [hr] at h
      by_cases hx : x = c
      · simp [hx] at h
        cases h
        simp [hx]
      · simp [hx] at h

theorem rfindChar_ge (c : Char) (l : List Char) : -1 ≤ rfindChar c l := by
  unfold rfindChar
  cases rfindAux c l
  · simp
  · simp only []
    omega

theorem splitextList_ext_dot (p : List Char) :
    (splitextList p).2 = [] ∨ (splitextList p).2.head? = some '.' := by
  simp only [splitextList]
  split
  · split
    · right
      rename_i hgt _
      rw [List.head?_drop]
      cases hr : rfindAux '.' p with
      | none =>
        exfalso
        have h1 := rfindChar_ge '\\' p
        have h2 : rfindChar '.' p = -1 := by simp [rfindChar, hr]
        rw [h2] at hgt
        have h3 : rfindChar '\\' p ≤ max (rfindChar '\\' p) (rfindChar '/' p) := le_max_left _ _
        omega
      | some i =>
        have hget := rfindAux_get '.' p i hr
        have h2 : rfindChar '.' p = (i : ℤ) := by simp [rfindChar, hr]
        rw [h2]
        simpa using hget
    · left; rfl
  · left; rfl

theorem splitext_ext_dot (p : String) :
    (splitext p).2 = "" ∨ (splitext p).2.data.head? = some '.' := by
  have h := splitextList_ext_dot p.data
  rcases h with h | h
  · left
    show String.mk (splitextList p.data).2 = ""
    rw [h]
  · right
    exact h

/-! Claim theorems. -/

/-- C7: for every input path the derived output path is obtained by
inserting the literal marker _1 immediately before the extension (the
suffix beginning at the last extension separator of the final path
component, where leading dots of a hidden file name do not open an
extension and a path without an extension gets the marker appended at the
end), the two specification examples hold, and the output path is never
equal to the input path. -/
theorem insert_suffix_spec :
    insertSuffix "movie.mkv" = "movie_1.mkv" ∧
    insertSuffix "movie" = "movie_1" ∧
    ∀ p : String,
      (splitext p).1 ++ (splitext p).2 = p ∧
      insertSuffix p = (splitext p).1 ++ "_1" ++ (splitext p).2 ∧
      ((splitext p).2 = "" ∨ (splitext p).2.data.head? = some '.') ∧
      insertSuffix p ≠ p :=
  ⟨by decide, by decide,
    fun p => ⟨splitext_append p, rfl, splitext_ext_dot p, insertSuffix_ne p⟩⟩

theorem foldl_collect {α β : Type} (p : α → Bool) (g : α → β) :
    ∀ (l : List α) (acc : List β),
      l.foldl (fun r x => if p x then r ++ [g x] else r) acc = acc ++ (l.filter p).map g := by
  intro l
  induction l with
  | nil => intro acc; simp
  | cons x xs ih =>
    intro acc
    simp only [List.foldl_cons, List.filter_cons]
    by_cases hp : p x
    · simp [hp, ih]
    · simp [hp, ih]

/-- C8: a folder run produces exactly the outcome messages of the
directory entries whose name, lowercased, ends in .mkv, one per matching
entry and in directory-listing order; each outcome is the single-file
result of that entry alone, so one entry cannot abort or alter the
processing of the others, and the number of outcomes is the number of
matching entries. -/
theorem folder_one_outcome_per_mkv (env : Env) (folder : String) (listing : List String) :
    process_folder env folder listing =
      (listing.filter (fun f => (f.toLower).endsWith ".mkv")).map
        (fun f => (sync_audio_video env (pyJoin folder f)).message) ∧
    (process_folder env folder listing).length =
      listing.countP (fun f => (f.toLower).endsWith ".mkv") := by
  have h := foldl_collect (fun f : String => (f.toLower).endsWith ".mkv")
    (fun f => (sync_audio_video env (pyJoin folder f)).message) listing []
  constructor
  · exact h
  · show (process_folder env folder listing).length = _
    rw [show process_folder env folder listing =
      (listing.filter (fun f => (f.toLower).endsWith ".mkv")).map
        (fun f => (sync_audio_video env (pyJoin folder f)).message) from h]
    rw [List.length_map, List.countP_eq_length_filter]

theorem extract_shape (env : Env) (f : String) :
    (get_tag_durations_and_seconds env f).error = none ∨
    ((get_tag_durations_and_seconds env f).video = none ∧
     (get_tag_durations_and_seconds env f).audio = none) := by
  unfold get_tag_durations_and_seconds
  split
  · exact Or.inr ⟨rfl, rfl⟩
  · split
    · exact Or.inr ⟨rfl, rfl⟩
    · split
      · exact Or.inr ⟨rfl, rfl⟩
      · split
        · exact Or.inr ⟨rfl, rfl⟩
        · split
          · exact Or.inr ⟨rfl, rfl⟩
          · split
            · exact Or.inr ⟨rfl, rfl⟩
            · split
              · exact Or.inl rfl
              · exact Or.inr ⟨rfl, rfl⟩

theorem extract_error_fields (env : Env) (f : String) (e : String)
    (h : (get_tag_durations_and_seconds env f).error = some e) :
    (get_tag_durations_and_seconds env f).video = none ∧
    (get_tag_durations_and_seconds env f).audio = none := by
  rcases extract_shape env f with hn | hva
  · rw [h] at hn
    cases hn
  · exact hva

theorem syncWithEx_remuxCalls (env : Env) (f : String) (ex : ExtractOut) :
    (syncWithEx env f ex).remuxCalls =
      match ex.error, ex.video, ex.audio with
      | none, some v, some a =>
        if v < a then
          [[mkvmergePath env, "-o", insertSuffix f, "--sync",
            "1:0," ++ pyFloatRepr v ++ "/" ++ pyFloatRepr a, f]]
        else []
      | _, _, _ => [] := by
  rcases ex with ⟨v, a, err, logs⟩
  cases err with
  | some e => rfl
  | none =>
    cases v with
    | none => rfl
    | some x =>
      cases a with
      | none => rfl
      | some y =>
        simp only [syncWithEx]
        by_cases hlt : x < y
        · simp only [if_pos hlt]
          cases env.remuxRun _ with
          | raised e => rfl
          | completed r =>
            by_cases hrc : r.returncode = 0
            · simp [hrc]
            · simp [hrc]
        · simp [if_neg hlt, hlt]

/-- C1: a remux invocation happens for a file exactly when the extraction
produced both durations and the video one is strictly smaller than the
audio one; on an extraction error, a missing duration, or a video duration
at least the audio duration, no remux process is invoked. -/
theorem remux_iff_shorter_video (env : Env) (f : String) :
    (sync_audio_video env f).remuxCalls ≠ [] ↔
      ∃ v a, (get_tag_durations_and_seconds env f).video = some v ∧
        (get_tag_durations_and_seconds env f).audio = some a ∧ v < a := by
  unfold sync_audio_video
  rw [syncWithEx_remuxCalls]
  rcases hgt : get_tag_durations_and_seconds env f with ⟨v, a, err, logs⟩
  cases err with
  | some e =>
    have hv := (extract_error_fields env f e (by rw [hgt])).1
    rw [hgt] at hv
    simp only at hv
    subst hv
    simp
  | none =>
    cases v with
    | none => simp
    | some x =>
      cases a with
      | none => simp
      | some y =>
        by_cases hlt : x < y
        · simp [hlt]
        · simp [hlt]

/-- C2: when both durations were extracted and the video one is smaller,
the remux collaborator is invoked exactly once, with exactly the argument
list executable path, -o, the derived output path, --sync, the directive
string 1:0, followed by the raw fraction video duration over audio
duration, and finally the input path. -/
theorem remux_command_args (env : Env) (f : String) (v a : ℤ)
    (hv : (get_tag_durations_and_seconds env f).video = some v)
    (ha : (get_tag_durations_and_seconds env f).audio = some a)
    (hlt : v < a) :
    (sync_audio_video env f).remuxCalls =
      [[mkvmergePath env, "-o", insertSuffix f, "--sync",
        "1:0," ++ pyFloatRepr v ++ "/" ++ pyFloatRepr a, f]] := by
  unfold sync_audio_video
  rw [syncWithEx_remuxCalls]
  have herr : (get_tag_durations_and_seconds env f).error = none := by
    rcases extract_shape env f with h | h
    · exact h
    · rw [h.1] at hv
      cases hv
  rw [herr, hv, ha]
  simp [hlt]

/-- Witness for C2: with one video track of one second and one audio track
of two seconds the remux command is exactly the expected argument list,
with the sync directive 1:0,1.0/2.0. -/
theorem remux_command_args_witness :
    (get_tag_durations_and_seconds envAV "f.mkv").video = some 10000 ∧
    (get_tag_durations_and_seconds envAV "f.mkv").audio = some 20000 ∧
    ((10000 : ℤ) < 20000) ∧
    (sync_audio_video envAV "f.mkv").remuxCalls =
      [["C:\\work\\mkvmerge.exe", "-o", "f_1.mkv", "--sync", "1:0,1.0/2.0", "f.mkv"]] := by
  refine ⟨by decide, by decide, by decide, ?_⟩
  have h := remux_command_args envAV "f.mkv" 10000 20000 (by decide) (by decide) (by decide)
  rw [h]
  decide

theorem msgStarts_append_right (pre s rest : String)
    (h : msgStarts pre s = true) : msgStarts pre (s ++ rest) = true := by
  simp only [msgStarts, decide_eq_true_eq] at *
  have hle : pre.data.length ≤ s.data.length := by
    have hlen := congrArg List.length h
    rw [List.length_take] at hlen
    exact min_eq_left_iff.mp hlen
  rw [strDataAppend, List.take_append_eq_append_take, Nat.sub_eq_zero_of_le hle]
  simpa using h

/-- C10: processing a single file is total over every modelled behaviour of
the external collaborators, missing tool, raised spawn, nonzero exit,
malformed JSON, malformed duration text included: it always returns one
outcome message, classified as success, skip, or error; no exception
escapes, since every raise channel of the model is converted into an
outcome by the embedded handlers. -/
theorem single_file_always_classified (env : Env) (f : String) :
    msgStarts "Success" (sync_audio_video env f).message = true ∨
    msgStarts "Skipped" (sync_audio_video env f).message = true ∨
    msgStarts "Error" (sync_audio_video env f).message = true := by
  unfold sync_audio_video
  rcases hgt : get_tag_durations_and_seconds env f with ⟨v, a, err, logs⟩
  cases err with
  | some e =>
    refine Or.inr (Or.inr ?_)
    dsimp only [syncWithEx]
    repeat apply msgStarts_append_right
    decide
  | none =>
    cases v with
    | none =>
      refine Or.inr (Or.inr ?_)
      dsimp only [syncWithEx]
      repeat apply msgStarts_append_right
      decide
    | some x =>
      cases a with
      | none =>
        refine Or.inr (Or.inr ?_)
        dsimp only [syncWithEx]
        repeat apply msgStarts_append_right
        decide
      | some y =>
        by_cases hlt : x < y
        · simp only [syncWithEx, if_pos hlt]
          cases env.remuxRun [mkvmergePath env, "-o", insertSuffix f, "--sync",
              "1:0," ++ pyFloatRepr x ++ "/" ++ pyFloatRepr y, f] with
          | raised e =>
            refine Or.inr (Or.inr ?_)
            dsimp only
            repeat apply msgStarts_append_right
            decide
          | completed r =>
            by_cases hrc : r.returncode = 0
            · refine Or.inl ?_
              dsimp only
              rw [if_pos hrc]
              repeat apply msgStarts_append_right
              decide
            · refine Or.inr (Or.inr ?_)
              dsimp only
              rw [if_neg hrc]
              repeat apply msgStarts_append_right
              decide
        · simp only [syncWithEx, if_neg hlt]
          refine Or.inr (Or.inl ?_)
          repeat apply msgStarts_append_right
          decide

/-- C4 counterexample: on a file whose inspection succeeds with an empty
track list, extraction succeeds with both durations absent, yet the
outcome message is the error Unable to retrieve durations, not a skip:
the claim that this case is classified as a skip is false, although no
remux process is indeed invoked. -/
theorem absent_durations_not_skip :
    (get_tag_durations_and_seconds envNoTracks "f.mkv").error = none ∧
    (get_tag_durations_and_seconds envNoTracks "f.mkv").video = none ∧
    (sync_audio_video envNoTracks "f.mkv").message =
      "Error: Unable to retrieve durations for f.mkv" ∧
    msgStarts "Skipped" (sync_audio_video envNoTracks "f.mkv").message = false ∧
    msgStarts "Error" (sync_audio_video envNoTracks "f.mkv").message = true ∧
    (sync_audio_video envNoTracks "f.mkv").remuxCalls = [] :=
  ⟨by decide, by decide, by decide, by decide, by decide, by decide⟩

/-- C4 amended: when extraction succeeds but either duration is absent,
the per-file outcome is the message Error: Unable to retrieve durations
for the file, classified as an error rather than a skip, and no remux
process is invoked. -/
theorem absent_durations_error_outcome (env : Env) (f : String)
    (herr : (get_tag_durations_and_seconds env f).error = none)
    (habs : (get_tag_durations_and_seconds env f).video = none ∨
            (get_tag_durations_and_seconds env f).audio = none) :
    (sync_audio_video env f).message = "Error: Unable to retrieve durations for " ++ f ∧
    (sync_audio_video env f).remuxCalls = [] := by
  unfold sync_audio_video
  rcases hgt : get_tag_durations_and_seconds env f with ⟨v, a, err, logs⟩
  rw [hgt] at herr habs
  dsimp only at herr habs
  subst herr
  rcases habs with h | h
  · subst h
    cases a <;> exact ⟨rfl, rfl⟩
  · subst h
    cases v <;> exact ⟨rfl, rfl⟩

/-- Witness for the amended C4 at a concrete input with an empty track
list. -/
theorem absent_durations_error_outcome_witness :
    (get_tag_durations_and_seconds envNoTracks "g.mkv").error = none ∧
    (get_tag_durations_and_seconds envNoTracks "g.mkv").video = none ∧
    (sync_audio_video envNoTracks "g.mkv").message =
      "Error: Unable to retrieve durations for g.mkv" ∧
    (sync_audio_video envNoTracks "g.mkv").remuxCalls = [] := by
  have h := absent_durations_error_outcome envNoTracks "g.mkv" (by decide) (Or.inl (by decide))
  exact ⟨by decide, by decide, h.1.trans (by decide), h.2⟩

theorem parse_logs_all (s : String) :
    ((parse_duration_to_seconds s).2).all isParseErr = true := by
  unfold parse_duration_to_seconds
  split
  · split <;> rfl
  · rfl

theorem parseJ_logs_all (v : JVal) : ((parseJ v).2).all isParseErr = true := by
  cases v <;> first | rfl | exact parse_logs_all _

theorem scanTracks_logs_all :
    ∀ (ts : List JVal) (v a : Option ℤ) (logs : List LogEntry),
      logs.all isParseErr = true →
      ((scanTracks ts v a logs).2.2.1).all isParseErr = true := by
  intro ts
  induction ts with
  | nil => intro v a logs h; exact h
  | cons t ts ih =>
    intro v a logs h
    have hl : ∀ tag : JVal, (logs ++ (parseJ tag).2).all isParseErr = true := by
      intro tag
      rw [List.all_append, h, parseJ_logs_all]
      rfl
    cases hty : pyGet t "type" (.str "unknown") with
    | error e => simp only [scanTracks, hty]; exact h
    | ok ttype =>
      cases hpr : pyGet t "properties" (.obj []) with
      | error e => simp only [scanTracks, hty, hpr]; exact h
      | ok props =>
        cases htg : pyGet props "tag_duration" (.str "unknown") with
        | error e => simp only [scanTracks, hty, hpr, htg]; exact h
        | ok tag =>
          simp only [scanTracks, hty, hpr, htg]
          by_cases h1 : jEqStr tag "unknown" = true
          · rw [if_pos h1]
            exact ih v a logs h
          · rw [if_neg h1]
            by_cases h2 : jEqStr ttype "video" = true
            · rw [if_pos h2]
              exact ih _ _ _ (hl tag)
            · rw [if_neg h2]
              by_cases h3 : jEqStr ttype "audio" = true
              · rw [if_pos h3]
                exact ih _ _ _ (hl tag)
              · rw [if_neg h3]
                exact ih _ _ _ (hl tag)

theorem extract_logs_all (env : Env) (f : String) :
    ((get_tag_durations_and_seconds env f).logs).all isParseErr = true := by
  unfold get_tag_durations_and_seconds
  split
  · rfl
  · split
    · rfl
    · split
      · rfl
      · split
        · rfl
        · split
          · rfl
          · split
            · rfl
            · split
              · rename_i v a logs hscan
                show logs.all isParseErr = true
                have h2 := congrArg
                  (fun t : Option ℤ × Option ℤ × List LogEntry × Option String =>
                    t.2.2.1.all isParseErr) hscan
                dsimp only at h2
                rw [← h2]
                exact scanTracks_logs_all _ none none [] rfl
              · rename_i v a logs e hscan
                show logs.all isParseErr = true
                have h2 := congrArg
                  (fun t : Option ℤ × Option ℤ × List LogEntry × Option String =>
                    t.2.2.1.all isParseErr) hscan
                dsimp only at h2
                rw [← h2]
                exact scanTracks_logs_all _ none none [] rfl

/-- C9 counterexample: a single tagged video track whose tag_duration text
does not parse makes the program append two log entries while processing
the file, the parse-error line from parse_duration_to_seconds and the
outcome block from sync_audio_video, so the claim that exactly one entry
is appended, never more, is false. -/
theorem two_log_entries :
    (sync_audio_video envBadTag "f.mkv").logs.length = 2 ∧ (2 : ℕ) ≠ 1 :=
  ⟨by decide, by decide⟩

theorem parseJ_logs_cases (v : JVal) :
    ((parseJ v).1 = none ∧ ((parseJ v).2).length = 1) ∨
    ((parseJ v).1 ≠ none ∧ (parseJ v).2 = []) := by
  cases v with
  | str s =>
    show ((parse_duration_to_seconds s).1 = none ∧
        ((parse_duration_to_seconds s).2).length = 1) ∨
      ((parse_duration_to_seconds s).1 ≠ none ∧ (parse_duration_to_seconds s).2 = [])
    unfold parse_duration_to_seconds
    split
    · rename_i hh mm ss heq
      cases hH : pyIntCore hh <;> cases hM : pyIntCore mm <;> cases hS : pyFloatCore ss <;>
        simp [hH, hM, hS]
    · simp
  | null => exact Or.inl ⟨rfl, rfl⟩
  | bool b => exact Or.inl ⟨rfl, rfl⟩
  | num q => exact Or.inl ⟨rfl, rfl⟩
  | arr xs => exact Or.inl ⟨rfl, rfl⟩
  | obj kvs => exact Or.inl ⟨rfl, rfl⟩

theorem scanTracks_logs_len :
    ∀ (ts : List JVal) (v a : Option ℤ) (logs : List LogEntry),
      ((scanTracks ts v a logs).2.2.1).length = logs.length + malformedTags ts := by
  intro ts
  induction ts with
  | nil => intro v a logs; simp [scanTracks, malformedTags]
  | cons t ts ih =>
    intro v a logs
    cases hty : pyGet t "type" (.str "unknown") with
    | error e => simp [scanTracks, malformedTags, hty]
    | ok ttype =>
      cases hpr : pyGet t "properties" (.obj []) with
      | error e => simp [scanTracks, malformedTags, hty, hpr]
      | ok props =>
        cases htg : pyGet props "tag_duration" (.str "unknown") with
        | error e => simp [scanTracks, malformedTags, hty, hpr, htg]
        | ok tag =>
          simp only [scanTracks, malformedTags, hty, hpr, htg]
          by_cases h1 : jEqStr tag "unknown" = true
          · rw [if_pos h1, if_pos h1]
            exact ih v a logs
          · rw [if_neg h1, if_neg h1]
            by_cases h2 : jEqStr ttype "video" = true
            · rw [if_pos h2, ih _ a _, List.length_append]
              rcases parseJ_logs_cases tag with ⟨hp, hl⟩ | ⟨hp, hl⟩
              · rw [if_pos hp, hl]
                omega
              · rw [if_neg hp, hl]
                simp
            · rw [if_neg h2]
              by_cases h3 : jEqStr ttype "audio" = true
              · rw [if_pos h3, ih v _ _, List.length_append]
                rcases parseJ_logs_cases tag with ⟨hp, hl⟩ | ⟨hp, hl⟩
                · rw [if_pos hp, hl]
                  omega
                · rw [if_neg hp, hl]
                  simp
              · rw [if_neg h3, ih v a _, List.length_append]
                rcases parseJ_logs_cases tag with ⟨hp, hl⟩ | ⟨hp, hl⟩
                · rw [if_pos hp, hl]
                  omega
                · rw [if_neg hp, hl]
                  simp

theorem extract_logs_count (env : Env) (f : String) (tracks : List JVal) (serr : String)
    (hex : env.mkvmergeExists = true)
    (hrun : env.inspectRun f =
      ProcResult.completed ⟨0, Except.ok (JVal.obj [("tracks", JVal.arr tracks)]), serr⟩) :
    ((get_tag_durations_and_seconds env f).logs).length = malformedTags tracks := by
  rcases hscan : scanTracks tracks none none [] with ⟨v, a, logs2, err⟩
  have hlen := scanTracks_logs_len tracks none none []
  rw [hscan] at hlen
  simp only [List.length_nil, Nat.zero_add] at hlen
  have hlogs : (get_tag_durations_and_seconds env f).logs = logs2 := by
    unfold get_tag_durations_and_seconds
    cases err with
    | none => simp [hex, hrun, pyGet, pyIter, List.lookup, hscan]
    | some e => simp [hex, hrun, pyGet, pyIter, List.lookup, hscan]
  rw [hlogs]
  exact hlen

theorem sync_logs_shape (env : Env) (f : String) :
    ∃ m, (sync_audio_video env f).logs =
      (get_tag_durations_and_seconds env f).logs ++ [LogEntry.entry m] := by
  unfold sync_audio_video
  rcases hgt : get_tag_durations_and_seconds env f with ⟨v, a, err, logs⟩
  cases err with
  | some e => exact ⟨_, rfl⟩
  | none =>
    cases v with
    | none => exact ⟨_, rfl⟩
    | some x =>
      cases a with
      | none => exact ⟨_, rfl⟩
      | some y =>
        by_cases hlt : x < y
        · simp only [syncWithEx, if_pos hlt]
          cases env.remuxRun [mkvmergePath env, "-o", insertSuffix f, "--sync",
              "1:0," ++ pyFloatRepr x ++ "/" ++ pyFloatRepr y, f] with
          | raised e => exact ⟨_, rfl⟩
          | completed r =>
            by_cases hrc : r.returncode = 0
            · simp only [if_pos hrc]
              exact ⟨_, rfl⟩
            · simp only [if_neg hrc]
              exact ⟨_, rfl⟩
        · simp only [syncWithEx, if_neg hlt]
          exact ⟨_, rfl⟩

/-- C9 amended: for every file, processing appends at least one log entry
and exactly one outcome entry, which is the final one, preceded only by
parse-error lines; when the inspection completes with a track list, the
number of those parse-error lines is exactly the number of malformed
duration tags the loop meets, one line for each such tag, and the total
is exactly one precisely when every encountered tag parses. -/
theorem log_block_structure (env : Env) (f : String) :
    ∃ pre m, (sync_audio_video env f).logs = pre ++ [LogEntry.entry m] ∧
      pre.all isParseErr = true ∧
      ∀ tracks serr, env.mkvmergeExists = true →
        env.inspectRun f =
          ProcResult.completed ⟨0, Except.ok (JVal.obj [("tracks", JVal.arr tracks)]), serr⟩ →
        pre.length = malformedTags tracks ∧
        ((sync_audio_video env f).logs.length = 1 ↔ malformedTags tracks = 0) := by
  obtain ⟨m, hm⟩ := sync_logs_shape env f
  refine ⟨(get_tag_durations_and_seconds env f).logs, m, hm, extract_logs_all env f, ?_⟩
  intro tracks serr h1 h2
  have hc := extract_logs_count env f tracks serr h1 h2
  refine ⟨hc, ?_⟩
  rw [hm, List.length_append, hc]
  simp only [List.length_singleton]
  omega

/-- Witness for the amended C9: with one video track whose tag_duration
is the unparseable text bogus, there is one malformed tag, the file gets
two log entries, and the instantiated biconditional relates the total of
one to a malformed-tag count of zero, both sides false here. -/
theorem log_block_structure_witness :
    envBadTag.mkvmergeExists = true ∧
    malformedTags [jTrack "video" "bogus"] = 1 ∧
    (sync_audio_video envBadTag "f.mkv").logs.length = 2 ∧
    ((sync_audio_video envBadTag "f.mkv").logs.length = 1 ↔
      malformedTags [jTrack "video" "bogus"] = 0) := by
  refine ⟨rfl, by decide, by decide, ?_⟩
  obtain ⟨pre, m, hm, hall, hcount⟩ := log_block_structure envBadTag "f.mkv"
  exact (hcount [jTrack "video" "bogus"] "" rfl rfl).2

theorem rheFrac_eq (p q : ℤ) (hq : 0 < q) :
    rheFrac p q = roundHalfEven ((p : ℚ) / (q : ℚ)) := by
  have hqQ : (0 : ℚ) < (q : ℚ) := by exact_mod_cast hq
  have hfl : ⌊(p : ℚ) / (q : ℚ)⌋ = p / q := by
    have h1 : ((q.toNat : ℕ) : ℤ) = q := Int.toNat_of_nonneg hq.le
    have h2 : ((q.toNat : ℕ) : ℚ) = (q : ℚ) := by exact_mod_cast congrArg (fun z : ℤ => (z : ℚ)) h1
    rw [← h2, Rat.floor_intCast_div_natCast, h1]
  have hfd : p.fdiv q = p / q := Int.fdiv_eq_ediv p hq.le
  have hcast : (p : ℚ) / (q : ℚ) - ((p / q : ℤ) : ℚ) = ((p - p / q * q : ℤ) : ℚ) / (q : ℚ) := by
    field_simp
    ring
  have c1 : ((p : ℚ) / (q : ℚ) - ((p / q : ℤ) : ℚ) < 1/2) ↔ (2 * (p - p / q * q) < q) := by
    rw [hcast, div_lt_iff₀ hqQ]
    constructor
    · intro h
      push_cast at h
      have h2 : ((2 * (p - p / q * q) : ℤ) : ℚ) < ((q : ℤ) : ℚ) := by push_cast; linarith
      exact_mod_cast h2
    · intro h
      have h2 : ((2 * (p - p / q * q) : ℤ) : ℚ) < ((q : ℤ) : ℚ) := by exact_mod_cast h
      push_cast at h2 ⊢
      linarith
  have c2 : (1/2 < (p : ℚ) / (q : ℚ) - ((p / q : ℤ) : ℚ)) ↔ (q < 2 * (p - p / q * q)) := by
    rw [hcast, lt_div_iff₀ hqQ]
    constructor
    · intro h
      push_cast at h
      have h2 : (((q : ℤ) : ℚ)) < ((2 * (p - p / q * q) : ℤ) : ℚ) := by push_cast; linarith
      exact_mod_cast h2
    · intro h
      have h2 : (((q : ℤ) : ℚ)) < ((2 * (p - p / q * q) : ℤ) : ℚ) := by exact_mod_cast h
      push_cast at h2 ⊢
      linarith
  simp only [rheFrac, roundHalfEven, hfl, hfd]
  by_cases hc1 : 2 * (p - p / q * q) < q
  · rw [if_pos hc1, if_pos (c1.mpr hc1)]
  · rw [if_neg hc1, if_neg (fun h => hc1 (c1.mp h))]
    by_cases hc2 : q < 2 * (p - p / q * q)
    · rw [if_pos hc2, if_pos (c2.mpr hc2)]
    · rw [if_neg hc2, if_neg (fun h => hc2 (c2.mp h))]

theorem splitOnChar_not_mem (c : Char) :
    ∀ l : List Char, c ∉ l → splitOnChar c l = [l] := by
  intro l
  induction l with
  | nil => intro _; rfl
  | cons x xs ih =>
    intro h
    have hx : ¬ x = c := by
      intro he
      exact h (he ▸ List.mem_cons_self x xs)
    have hxs : c ∉ xs := fun hm => h (List.mem_cons_of_mem x hm)
    simp only [splitOnChar, if_neg hx, ih hxs]

theorem splitOnChar_append (c : Char) :
    ∀ (a rest : List Char), c ∉ a →
      splitOnChar c (a ++ c :: rest) = a :: splitOnChar c rest := by
  intro a
  induction a with
  | nil =>
    intro rest _
    simp [splitOnChar]
  | cons x xs ih =>
    intro rest h
    have hx : ¬ x = c := by
      intro he
      exact h (he ▸ List.mem_cons_self x xs)
    have hxs : c ∉ xs := fun hm => h (List.mem_cons_of_mem x hm)
    simp only [List.cons_append, splitOnChar, if_neg hx, List.append_eq, ih rest hxs]

theorem splitOnChar_parts_sub (c : Char) :
    ∀ (l : List Char), ∀ p ∈ splitOnChar c l, ∀ x ∈ p, x ∈ l := by
  intro l
  induction l with
  | nil =>
    intro p hp x hx
    simp only [splitOnChar, List.mem_singleton] at hp
    subst hp
    cases hx
  | cons y ys ih =>
    intro p hp x hx
    by_cases hy : y = c
    · simp only [splitOnChar, if_pos hy] at hp
      rcases List.mem_cons.mp hp with hp | hp
      · subst hp
        cases hx
      · exact List.mem_cons_of_mem y (ih p hp x hx)
    · simp only [splitOnChar, if_neg hy] at hp
      cases hsp : splitOnChar c ys with
      | nil =>
        rw [hsp] at hp
        simp only [List.mem_singleton] at hp
        subst hp
        rcases List.mem_cons.mp hx with hx | hx
        · subst hx
          exact List.mem_cons_self _ _
        · cases hx
      | cons z zs =>
        rw [hsp] at hp
        rcases List.mem_cons.mp hp with hp | hp
        · subst hp
          rcases List.mem_cons.mp hx with hx | hx
          · subst hx
            exact List.mem_cons_self _ _
          · refine List.mem_cons_of_mem y (ih z ?_ x hx)
            rw [hsp]
            exact List.mem_cons_self z zs
        · refine List.mem_cons_of_mem y (ih p ?_ x hx)
          rw [hsp]
          exact List.mem_cons_of_mem z hp

theorem splitOnChar_mem_parts (c : Char) :
    ∀ (l : List Char) (x : Char), x ∈ l → x = c ∨ ∃ p ∈ splitOnChar c l, x ∈ p := by
  intro l
  induction l with
  | nil => intro x hx; cases hx
  | cons y ys ih =>
    intro x hx
    by_cases hy : y = c
    · rcases List.mem_cons.mp hx with hx | hx
      · exact Or.inl (hx.trans hy)
      · rcases ih x hx with h | ⟨p, hp, hxp⟩
        · exact Or.inl h
        · refine Or.inr ⟨p, ?_, hxp⟩
          simp only [splitOnChar, if_pos hy]
          exact List.mem_cons_of_mem _ hp
    · rcases List.mem_cons.mp hx with hx | hx
      · subst hx
        refine Or.inr ?_
        simp only [splitOnChar, if_neg hy]
        cases hsp : splitOnChar c ys with
        | nil => exact ⟨[x], List.mem_singleton.mpr rfl, List.mem_cons_self _ _⟩
        | cons z zs => exact ⟨x :: z, List.mem_cons_self _ _, List.mem_cons_self _ _⟩
      · rcases ih x hx with h | ⟨p, hp, hxp⟩
        · exact Or.inl h
        · refine Or.inr ?_
          simp only [splitOnChar, if_neg hy]
          cases hsp : splitOnChar c ys with
          | nil =>
            rw [hsp] at hp
            cases hp
          | cons z zs =>
            rw [hsp] at hp
            rcases List.mem_cons.mp hp with hp | hp
            · exact ⟨y :: z, List.mem_cons_self _ _, List.mem_cons_of_mem _ (hp ▸ hxp)⟩
            · exact ⟨p, List.mem_cons_of_mem _ hp, hxp⟩

theorem pyIntCore_chars (l : List Char) (z : ℤ) (h : pyIntCore l = some z) :
    ∀ x ∈ l, x = '-' ∨ x = '+' ∨ x.isDigit = true := by
  cases l with
  | nil => cases h
  | cons c rest =>
    intro x hx
    simp only [pyIntCore] at h
    by_cases h1 : c = '-'
    · rw [if_pos h1] at h
      by_cases h2 : rest ≠ [] ∧ rest.all Char.isDigit
      · rcases List.mem_cons.mp hx with hxc | hxr
        · exact Or.inl (hxc.trans h1)
        · exact Or.inr (Or.inr (by simpa using List.all_eq_true.mp h2.2 x (by simpa using hxr)))
      · rw [if_neg h2] at h
        cases h
    · rw [if_neg h1] at h
      by_cases h1b : c = '+'
      · rw [if_pos h1b] at h
        by_cases h2 : rest ≠ [] ∧ rest.all Char.isDigit
        · rcases List.mem_cons.mp hx with hxc | hxr
          · exact Or.inr (Or.inl (hxc.trans h1b))
          · exact Or.inr (Or.inr (by simpa using List.all_eq_true.mp h2.2 x (by simpa using hxr)))
        · rw [if_neg h2] at h
          cases h
      · rw [if_neg h1b] at h
        by_cases h2 : (c :: rest).all Char.isDigit = true
        · exact Or.inr (Or.inr (by simpa using List.all_eq_true.mp h2 x (by simpa using hx)))
        · rw [if_neg h2] at h
          cases h

theorem pyFloatMag_chars (l : List Char) (nd : ℤ × ℤ) (h : pyFloatMag l = some nd) :
    ∀ x ∈ l, x = '.' ∨ x.isDigit = true := by
  intro x hx
  rcases splitOnChar_mem_parts '.' l x hx with hdot | ⟨p, hp, hxp⟩
  · exact Or.inl hdot
  · unfold pyFloatMag at h
    right
    cases hsp : splitOnChar '.' l with
    | nil => rw [hsp] at hp; cases hp
    | cons a tl =>
      rw [hsp] at h hp
      cases tl with
      | nil =>
        replace h : (if a ≠ [] ∧ a.all Char.isDigit = true then
            some ((digitsToNat a : ℤ), (1 : ℤ)) else none) = some nd := h
        by_cases h2 : a ≠ [] ∧ a.all Char.isDigit = true
        · have hpa : p = a := by
            rcases List.mem_cons.mp hp with h3 | h3
            · exact h3
            · cases h3
          subst hpa
          simpa using List.all_eq_true.mp h2.2 x (by simpa using hxp)
        · rw [if_neg h2] at h
          cases h
      | cons b tl2 =>
        cases tl2 with
        | nil =>
          replace h : (if (a ++ b) ≠ [] ∧ a.all Char.isDigit = true ∧ b.all Char.isDigit = true then
              some ((digitsToNat a * 10 ^ b.length + digitsToNat b : ℤ), (10 ^ b.length : ℤ))
              else none) = some nd := h
          by_cases h2 : (a ++ b) ≠ [] ∧ a.all Char.isDigit = true ∧ b.all Char.isDigit = true
          · rcases List.mem_cons.mp hp with h3 | h3
            · subst h3
              simpa using List.all_eq_true.mp h2.2.1 x (by simpa using hxp)
            · have hpb : p = b := by
                rcases List.mem_cons.mp h3 with h4 | h4
                · exact h4
                · cases h4
              subst hpb
              simpa using List.all_eq_true.mp h2.2.2 x (by simpa using hxp)
          · rw [if_neg h2] at h
            cases h
        | cons d tl3 => cases h

theorem pyFloatCore_chars (l : List Char) (nd : ℤ × ℤ) (h : pyFloatCore l = some nd) :
    ∀ x ∈ l, x = '-' ∨ x = '+' ∨ x = '.' ∨ x.isDigit = true := by
  cases l with
  | nil => cases h
  | cons c rest =>
    intro x hx
    simp only [pyFloatCore] at h
    by_cases h1 : c = '-'
    · rw [if_pos h1] at h
      rcases List.mem_cons.mp hx with hxc | hxr
      · exact Or.inl (hxc.trans h1)
      · cases hm : pyFloatMag rest with
        | none => rw [hm] at h; cases h
        | some nd2 =>
          rcases pyFloatMag_chars rest nd2 hm x hxr with h3 | h3
          · exact Or.inr (Or.inr (Or.inl h3))
          · exact Or.inr (Or.inr (Or.inr h3))
    · rw [if_neg h1] at h
      by_cases h1b : c = '+'
      · rw [if_pos h1b] at h
        rcases List.mem_cons.mp hx with hxc | hxr
        · exact Or.inr (Or.inl (hxc.trans h1b))
        · rcases pyFloatMag_chars rest nd h x hxr with h3 | h3
          · exact Or.inr (Or.inr (Or.inl h3))
          · exact Or.inr (Or.inr (Or.inr h3))
      · rw [if_neg h1b] at h
        rcases pyFloatMag_chars (c :: rest) nd h x hx with h3 | h3
        · exact Or.inr (Or.inr (Or.inl h3))
        · exact Or.inr (Or.inr (Or.inr h3))

theorem pyIntCore_no_colon (l : List Char) (z : ℤ) (h : pyIntCore l = some z) : ':' ∉ l := by
  intro hm
  rcases pyIntCore_chars l z h ':' hm with h1 | h1 | h1 <;> exact absurd h1 (by decide)

theorem pyFloatCore_no_colon (l : List Char) (nd : ℤ × ℤ) (h : pyFloatCore l = some nd) :
    ':' ∉ l := by
  intro hm
  rcases pyFloatCore_chars l nd h ':' hm with h1 | h1 | h1 | h1 <;> exact absurd h1 (by decide)

theorem pyFloatMag_num_den (l : List Char) (nd : ℤ × ℤ) (h : pyFloatMag l = some nd) :
    0 ≤ nd.1 ∧ 0 < nd.2 := by
  unfold pyFloatMag at h
  cases hsp : splitOnChar '.' l with
  | nil => rw [hsp] at h; cases h
  | cons a tl =>
    rw [hsp] at h
    cases tl with
    | nil =>
      replace h : (if a ≠ [] ∧ a.all Char.isDigit = true then
          some ((digitsToNat a : ℤ), (1 : ℤ)) else none) = some nd := h
      by_cases h2 : a ≠ [] ∧ a.all Char.isDigit = true
      · rw [if_pos h2] at h
        injection h with h3
        subst h3
        exact ⟨by positivity, by norm_num⟩
      · rw [if_neg h2] at h
        cases h
    | cons b tl2 =>
      cases tl2 with
      | nil =>
        replace h : (if (a ++ b) ≠ [] ∧ a.all Char.isDigit = true ∧ b.all Char.isDigit = true then
            some ((digitsToNat a * 10 ^ b.length + digitsToNat b : ℤ), (10 ^ b.length : ℤ))
            else none) = some nd := h
        by_cases h2 : (a ++ b) ≠ [] ∧ a.all Char.isDigit = true ∧ b.all Char.isDigit = true
        · rw [if_pos h2] at h
          injection h with h3
          subst h3
          exact ⟨by positivity, by positivity⟩
        · rw [if_neg h2] at h
          cases h
      | cons d tl3 => cases h

theorem pyFloatCore_den_pos (l : List Char) (nd : ℤ × ℤ) (h : pyFloatCore l = some nd) :
    0 < nd.2 := by
  cases l with
  | nil => cases h
  | cons c rest =>
    simp only [pyFloatCore] at h
    by_cases h1 : c = '-'
    · rw [if_pos h1] at h
      cases hm : pyFloatMag rest with
      | none => rw [hm] at h; cases h
      | some nd2 =>
        rw [hm] at h
        injection h with h3
        subst h3
        exact (pyFloatMag_num_den rest nd2 hm).2
    · rw [if_neg h1] at h
      by_cases h1b : c = '+'
      · rw [if_pos h1b] at h
        exact (pyFloatMag_num_den rest nd h).2
      · rw [if_neg h1b] at h
        exact (pyFloatMag_num_den (c :: rest) nd h).2

theorem pyFloatCore_nonneg (l : List Char) (nd : ℤ × ℤ) (h : pyFloatCore l = some nd)
    (hminus : '-' ∉ l) : 0 ≤ nd.1 := by
  cases l with
  | nil => cases h
  | cons c rest =>
    simp only [pyFloatCore] at h
    by_cases h1 : c = '-'
    · exact absurd (h1 ▸ List.mem_cons_self c rest) hminus
    · rw [if_neg h1] at h
      by_cases h1b : c = '+'
      · rw [if_pos h1b] at h
        exact (pyFloatMag_num_den rest nd h).1
      · rw [if_neg h1b] at h
        exact (pyFloatMag_num_den (c :: rest) nd h).1

theorem pyIntCore_nonneg (l : List Char) (z : ℤ) (h : pyIntCore l = some z)
    (hminus : '-' ∉ l) : 0 ≤ z := by
  cases l with
  | nil => cases h
  | cons c rest =>
    simp only [pyIntCore] at h
    by_cases h1 : c = '-'
    · exact absurd (h1 ▸ List.mem_cons_self c rest) hminus
    · rw [if_neg h1] at h
      by_cases h1b : c = '+'
      · rw [if_pos h1b] at h
        by_cases h2 : rest ≠ [] ∧ rest.all Char.isDigit = true
        · rw [if_pos h2] at h
          injection h with h3
          subst h3
          positivity
        · rw [if_neg h2] at h
          cases h
      · rw [if_neg h1b] at h
        by_cases h2 : (c :: rest).all Char.isDigit = true
        · rw [if_pos h2] at h
          injection h with h3
          subst h3
          positivity
        · rw [if_neg h2] at h
          cases h

theorem rheFrac_nonneg (p q : ℤ) (hp : 0 ≤ p) (hq : 0 < q) : 0 ≤ rheFrac p q := by
  have hf : 0 ≤ p.fdiv q := Int.fdiv_nonneg hp hq.le
  simp only [rheFrac]
  split
  · exact hf
  · split
    · omega
    · split <;> omega

/-- C5: for every well-formed duration string, hours and minutes accepted
by the Python int conversion and seconds accepted by the Python float
conversion, joined by colons, parsing succeeds with no log entry and the
resulting duration value, in seconds, is hours times 3600 plus minutes
times 60 plus seconds, rounded to 4 decimal places; the fixed-point result
z stands for the value z divided by 10000. -/
theorem parse_duration_formula (hc mc sc : List Char) (H M : ℤ) (nd : ℤ × ℤ)
    (hH : pyIntCore hc = some H) (hM : pyIntCore mc = some M)
    (hS : pyFloatCore sc = some nd) :
    ∃ z : ℤ,
      parse_duration_to_seconds (String.mk (hc ++ ':' :: (mc ++ ':' :: sc))) = (some z, []) ∧
      (z : ℚ) / 10000 = round4 ((H : ℚ) * 3600 + (M : ℚ) * 60 + (nd.1 : ℚ) / (nd.2 : ℚ)) := by
  have hden : 0 < nd.2 := pyFloatCore_den_pos sc nd hS
  have h1 : ':' ∉ hc := pyIntCore_no_colon hc H hH
  have h2 : ':' ∉ mc := pyIntCore_no_colon mc M hM
  have h3 : ':' ∉ sc := pyFloatCore_no_colon sc nd hS
  have hsplit : splitOnChar ':' (hc ++ ':' :: (mc ++ ':' :: sc)) = [hc, mc, sc] := by
    rw [splitOnChar_append ':' hc _ h1, splitOnChar_append ':' mc _ h2,
      splitOnChar_not_mem ':' sc h3]
  refine ⟨rheFrac (((H * 3600 + M * 60) * nd.2 + nd.1) * 10000) nd.2, ?_, ?_⟩
  · unfold parse_duration_to_seconds
    dsimp only
    rw [hsplit]
    simp only [hH, hM, hS]
  · have harg : ((((H * 3600 + M * 60) * nd.2 + nd.1) * 10000 : ℤ) : ℚ) / ((nd.2 : ℤ) : ℚ) =
        ((H : ℚ) * 3600 + (M : ℚ) * 60 + (nd.1 : ℚ) / (nd.2 : ℚ)) * 10000 := by
      have hdQ : ((nd.2 : ℤ) : ℚ) ≠ 0 := by
        have hpos : (0 : ℚ) < ((nd.2 : ℤ) : ℚ) := by exact_mod_cast hden
        exact hpos.ne'
      push_cast
      field_simp
    rw [rheFrac_eq _ _ hden, harg]
    rfl

/-- Witness for C5 at the specification example: parsing 1:10:10.1110000
yields 4210.111 seconds, that is 42101110 ten-thousandths, which equals
the rounded formula value. -/
theorem parse_duration_formula_witness :
    pyIntCore "1".data = some 1 ∧ pyIntCore "10".data = some 10 ∧
    pyFloatCore "10.1110000".data = some (101110000, 10000000) ∧
    parse_duration_to_seconds "1:10:10.1110000" = (some 42101110, []) ∧
    ((42101110 : ℤ) : ℚ) / 10000 =
      round4 (((1 : ℤ) : ℚ) * 3600 + ((10 : ℤ) : ℚ) * 60 +
        ((101110000 : ℤ) : ℚ) / ((10000000 : ℤ) : ℚ)) := by
  obtain ⟨z, hz, hr⟩ := parse_duration_formula "1".data "10".data "10.1110000".data
    1 10 (101110000, 10000000) (by decide) (by decide) (by decide)
  have hs : String.mk ("1".data ++ ':' :: ("10".data ++ ':' :: "10.1110000".data)) =
      "1:10:10.1110000" := rfl
  rw [hs] at hz
  have h1 : parse_duration_to_seconds "1:10:10.1110000" = (some 42101110, []) := rfl
  have hz2 : z = 42101110 := by
    have := congrArg Prod.fst (h1.symm.trans hz)
    exact (Option.some.inj this).symm
  subst hz2
  exact ⟨by decide, by decide, by decide, h1, hr⟩

/-- C6 counterexample: the Python int conversion accepts a leading minus
sign, so the duration string -1:00:00 parses to the negative value -3600
seconds (-36000000 ten-thousandths) instead of failing; the claim that
parse never produces a negative duration on any input is false. -/
theorem parse_negative_value :
    (parse_duration_to_seconds "-1:00:00").1 = some (-36000000) ∧
    ((-36000000 : ℤ) : ℚ) / 10000 < 0 ∧ (-36000000 : ℤ) < 0 :=
  ⟨by decide, by norm_num, by decide⟩

/-- C6 amended: on every input string containing no minus sign, parse
either fails, yielding None and never a numeric placeholder, or returns a
non-negative duration; inputs with a minus sign can produce negative
values, as the counterexample shows. -/
theorem parse_nonneg_without_minus (s : String) (z : ℤ)
    (hminus : '-' ∉ s.data) (h : (parse_duration_to_seconds s).1 = some z) :
    0 ≤ z ∧ (0 : ℚ) ≤ (z : ℚ) / 10000 := by
  suffices h0 : 0 ≤ z by
    exact ⟨h0, div_nonneg (by exact_mod_cast h0) (by norm_num)⟩
  unfold parse_duration_to_seconds at h
  cases hsp : splitOnChar ':' s.data with
  | nil =>
    rw [hsp] at h
    replace h : (none : Option ℤ) = some z := h
    cases h
  | cons p1 tl =>
    cases tl with
    | nil =>
      rw [hsp] at h
      replace h : (none : Option ℤ) = some z := h
      cases h
    | cons p2 tl2 =>
      cases tl2 with
      | nil =>
        rw [hsp] at h
        replace h : (none : Option ℤ) = some z := h
        cases h
      | cons p3 tl3 =>
        cases tl3 with
        | cons p4 tl4 =>
          rw [hsp] at h
          replace h : (none : Option ℤ) = some z := h
          cases h
        | nil =>
          rw [hsp] at h
          dsimp only at h
          cases hH : pyIntCore p1 with
          | none =>
            rw [hH] at h
            replace h : (none : Option ℤ) = some z := h
            cases h
          | some H =>
            cases hM : pyIntCore p2 with
            | none =>
              rw [hH, hM] at h
              replace h : (none : Option ℤ) = some z := h
              cases h
            | some M =>
              cases hS : pyFloatCore p3 with
              | none =>
                rw [hH, hM, hS] at h
                replace h : (none : Option ℤ) = some z := h
                cases h
              | some nd =>
                rw [hH, hM, hS] at h
                replace h : some (rheFrac (((H * 3600 + M * 60) * nd.2 + nd.1) * 10000) nd.2) =
                    some z := h
                have hz := Option.some.inj h
                subst hz
                have hsub := splitOnChar_parts_sub ':' s.data
                have hm1 : '-' ∉ p1 := fun hm =>
                  hminus (hsub p1 (by rw [hsp]; exact List.mem_cons_self _ _) '-' hm)
                have hm2 : '-' ∉ p2 := fun hm =>
                  hminus (hsub p2 (by rw [hsp]; exact List.mem_cons_of_mem _ (List.mem_cons_self _ _)) '-' hm)
                have hm3 : '-' ∉ p3 := fun hm =>
                  hminus (hsub p3 (by
                    rw [hsp]
                    exact List.mem_cons_of_mem _ (List.mem_cons_of_mem _ (List.mem_cons_self _ _))) '-' hm)
                have hHn : 0 ≤ H := pyIntCore_nonneg p1 H hH hm1
                have hMn : 0 ≤ M := pyIntCore_nonneg p2 M hM hm2
                have hSn : 0 ≤ nd.1 := pyFloatCore_nonneg p3 nd hS hm3
                have hdp : 0 < nd.2 := pyFloatCore_den_pos p3 nd hS
                refine rheFrac_nonneg _ _ ?_ hdp
                have t1 : 0 ≤ H * 3600 := mul_nonneg hHn (by norm_num)
                have t2 : 0 ≤ M * 60 := mul_nonneg hMn (by norm_num)
                have t3 : 0 ≤ (H * 3600 + M * 60) * nd.2 := mul_nonneg (by linarith) hdp.le
                have t4 : 0 ≤ (H * 3600 + M * 60) * nd.2 + nd.1 := by linarith
                exact mul_nonneg t4 (by norm_num)

/-- Witness for the amended C6 at the minus-free input 1:02:03, which
parses to 3723 seconds. -/
theorem parse_nonneg_without_minus_witness :
    ('-' ∉ ("1:02:03" : String).data) ∧
    (parse_duration_to_seconds "1:02:03").1 = some 37230000 ∧
    (0 : ℤ) ≤ 37230000 ∧ (0 : ℚ) ≤ ((37230000 : ℤ) : ℚ) / 10000 := by
  refine ⟨by decide, by decide, ?_, ?_⟩
  · exact (parse_nonneg_without_minus "1:02:03" 37230000 (by decide) (by decide)).1
  · exact (parse_nonneg_without_minus "1:02:03" 37230000 (by decide) (by decide)).2

theorem pyGet_ok_jGetD (v : JVal) (k : String) (d x : JVal)
    (h : pyGet v k d = .ok x) : jGetD v k d = x := by
  cases v with
  | obj kvs =>
    simp only [pyGet, Except.ok.injEq] at h
    simp [jGetD, h]
  | null => simp [pyGet] at h
  | bool b => simp [pyGet] at h
  | num q => simp [pyGet] at h
  | str s => simp [pyGet] at h
  | arr xs => simp [pyGet] at h

theorem scanTracks_video :
    ∀ (ts : List JVal) (v a : Option ℤ) (logs : List LogEntry),
      (scanTracks ts v a logs).2.2.2 = none →
      (scanTracks ts v a logs).1 =
        (match lastTagged "video" ts with
         | none => v
         | some t => (parseJ (tagOf t)).1) := by
  intro ts
  induction ts with
  | nil => intro v a logs _; rfl
  | cons t ts ih =>
    intro v a logs hne
    cases hty : pyGet t "type" (.str "unknown") with
    | error e => simp [scanTracks, hty] at hne
    | ok ttype =>
      cases hpr : pyGet t "properties" (.obj []) with
      | error e => simp [scanTracks, hty, hpr] at hne
      | ok props =>
        cases htg : pyGet props "tag_duration" (.str "unknown") with
        | error e => simp [scanTracks, hty, hpr, htg] at hne
        | ok tag =>
          have hty2 : jGetD t "type" (.str "unknown") = ttype := pyGet_ok_jGetD _ _ _ _ hty
          have htag2 : tagOf t = tag := by
            unfold tagOf
            rw [pyGet_ok_jGetD _ _ _ _ hpr, pyGet_ok_jGetD _ _ _ _ htg]
          simp only [scanTracks, hty, hpr, htg] at hne ⊢
          by_cases h1 : jEqStr tag "unknown" = true
          · rw [if_pos h1] at hne ⊢
            have hnt : isTaggedOfType "video" t = false := by
              simp [isTaggedOfType, htag2, h1]
            rw [ih v a logs hne]
            cases hl : lastTagged "video" ts with
            | none => simp [lastTagged, hl, hnt]
            | some u => simp [lastTagged, hl]
          · rw [if_neg h1] at hne ⊢
            have h1b : jEqStr tag "unknown" = false := by
              simpa using h1
            by_cases h2 : jEqStr ttype "video" = true
            · rw [if_pos h2] at hne ⊢
              have hyt : isTaggedOfType "video" t = true := by
                simp [isTaggedOfType, hty2, htag2, h2, h1b]
              rw [ih _ a _ hne]
              cases hl : lastTagged "video" ts with
              | none => simp [lastTagged, hl, hyt, htag2]
              | some u => simp [lastTagged, hl]
            · have h2b : jEqStr ttype "video" = false := by
                simpa using h2
              have hnt : isTaggedOfType "video" t = false := by
                simp [isTaggedOfType, hty2, h2b]
              rw [if_neg h2] at hne ⊢
              by_cases h3 : jEqStr ttype "audio" = true
              · rw [if_pos h3] at hne ⊢
                rw [ih v _ _ hne]
                cases hl : lastTagged "video" ts with
                | none => simp [lastTagged, hl, hnt]
                | some u => simp [lastTagged, hl]
              · rw [if_neg h3] at hne ⊢
                rw [ih v _ _ hne]
                cases hl : lastTagged "video" ts with
                | none => simp [lastTagged, hl, hnt]
                | some u => simp [lastTagged, hl]

theorem scanTracks_audio :
    ∀ (ts : List JVal) (v a : Option ℤ) (logs : List LogEntry),
      (scanTracks ts v a logs).2.2.2 = none →
      (scanTracks ts v a logs).2.1 =
        (match lastTagged "audio" ts with
         | none => a
         | some t => (parseJ (tagOf t)).1) := by
  intro ts
  induction ts with
  | nil => intro v a logs _; rfl
  | cons t ts ih =>
    intro v a logs hne
    cases hty : pyGet t "type" (.str "unknown") with
    | error e => simp [scanTracks, hty] at hne
    | ok ttype =>
      cases hpr : pyGet t "properties" (.obj []) with
      | error e => simp [scanTracks, hty, hpr] at hne
      | ok props =>
        cases htg : pyGet props "tag_duration" (.str "unknown") with
        | error e => simp [scanTracks, hty, hpr, htg] at hne
        | ok tag =>
          have hty2 : jGetD t "type" (.str "unknown") = ttype := pyGet_ok_jGetD _ _ _ _ hty
          have htag2 : tagOf t = tag := by
            unfold tagOf
            rw [pyGet_ok_jGetD _ _ _ _ hpr, pyGet_ok_jGetD _ _ _ _ htg]
          simp only [scanTracks, hty, hpr, htg] at hne ⊢
          by_cases h1 : jEqStr tag "unknown" = true
          · rw [if_pos h1] at hne ⊢
            have hnt : isTaggedOfType "audio" t = false := by
              simp [isTaggedOfType, htag2, h1]
            rw [ih v a logs hne]
            cases hl : lastTagged "audio" ts with
            | none => simp [lastTagged, hl, hnt]
            | some u => simp [lastTagged, hl]
          · rw [if_neg h1] at hne ⊢
            have h1b : jEqStr tag "unknown" = false := by
              simpa using h1
            by_cases h2 : jEqStr ttype "video" = true
            · rw [if_pos h2] at hne ⊢
              have hnt : isTaggedOfType "audio" t = false := by
                have : jEqStr ttype "audio" = false := by
                  cases htv : ttype with
                  | str st =>
                    simp only [jEqStr] at h2 ⊢
                    subst htv
                    simp only [jEqStr] at h2
                    have : st = "video" := by simpa using h2
                    simp [this]
                  | _ => simp [jEqStr]
                simp [isTaggedOfType, hty2, this]
              rw [ih _ a _ hne]
              cases hl : lastTagged "audio" ts with
              | none => simp [lastTagged, hl, hnt]
              | some u => simp [lastTagged, hl]
            · rw [if_neg h2] at hne ⊢
              by_cases h3 : jEqStr ttype "audio" = true
              · rw [if_pos h3] at hne ⊢
                have hyt : isTaggedOfType "audio" t = true := by
                  simp [isTaggedOfType, hty2, htag2, h3, h1b]
                rw [ih v _ _ hne]
                cases hl : lastTagged "audio" ts with
                | none => simp [lastTagged, hl, hyt, htag2]
                | some u => simp [lastTagged, hl]
              · have h3b : jEqStr ttype "audio" = false := by
                  simpa using h3
                have hnt : isTaggedOfType "audio" t = false := by
                  simp [isTaggedOfType, hty2, h3b]
                rw [if_neg h3] at hne ⊢
                rw [ih v _ _ hne]
                cases hl : lastTagged "audio" ts with
                | none => simp [lastTagged, hl, hnt]
                | some u => simp [lastTagged, hl]

/-- C3 counterexample: with two video tracks whose tagged durations are
one and two seconds, extraction assigns the duration of the second, last,
track to the video field, not that of the first: the loop overwrites the
slot on every matching track, so the claim that the first such track wins
is false. -/
theorem first_track_counterexample :
    (parse_duration_to_seconds "0:00:01").1 = some 10000 ∧
    (parse_duration_to_seconds "0:00:02").1 = some 20000 ∧
    (get_tag_durations_and_seconds envTwoVideo "f.mkv").video = some 20000 ∧
    some (20000 : ℤ) ≠ some (10000 : ℤ) :=
  ⟨by decide, by decide, by decide, by decide⟩

/-- C3 amended: when the inspection succeeds with a track list and the
track loop raises no exception, the video field receives the parsed
tag_duration of the LAST track of type video carrying a tag_duration
other than unknown, later tracks overwriting earlier ones, and
symmetrically the audio field receives that of the last such audio
track; either field is absent when no such track exists. -/
theorem extract_last_tagged_wins (env : Env) (f : String) (tracks : List JVal) (serr : String)
    (hex : env.mkvmergeExists = true)
    (hrun : env.inspectRun f =
      .completed ⟨0, .ok (.obj [("tracks", .arr tracks)]), serr⟩)
    (hok : (scanTracks tracks none none []).2.2.2 = none) :
    (get_tag_durations_and_seconds env f).video =
      (match lastTagged "video" tracks with
       | none => none
       | some t => (parseJ (tagOf t)).1) ∧
    (get_tag_durations_and_seconds env f).audio =
      (match lastTagged "audio" tracks with
       | none => none
       | some t => (parseJ (tagOf t)).1) := by
  rcases hscan : scanTracks tracks none none [] with ⟨v, a, logs, err⟩
  rw [hscan] at hok
  dsimp only at hok
  subst hok
  constructor
  · have hv : (get_tag_durations_and_seconds env f).video = v := by
      unfold get_tag_durations_and_seconds
      simp [hex, hrun, pyGet, pyIter, List.lookup, hscan]
    rw [hv]
    have hsv := scanTracks_video tracks none none [] (by rw [hscan])
    rw [hscan] at hsv
    dsimp only at hsv
    exact hsv
  · have ha : (get_tag_durations_and_seconds env f).audio = a := by
      unfold get_tag_durations_and_seconds
      simp [hex, hrun, pyGet, pyIter, List.lookup, hscan]
    rw [ha]
    have hsa := scanTracks_audio tracks none none [] (by rw [hscan])
    rw [hscan] at hsa
    dsimp only at hsa
    exact hsa

/-- Witness for the amended C3 at two tagged video tracks of one and two
seconds: the video field receives the last duration, two seconds, and the
audio field stays absent. -/
theorem extract_last_tagged_wins_witness :
    (scanTracks [jTrack "video" "0:00:01", jTrack "video" "0:00:02"] none none []).2.2.2 = none ∧
    envTwoVideo.mkvmergeExists = true ∧
    (get_tag_durations_and_seconds envTwoVideo "f.mkv").video = some 20000 ∧
    (get_tag_durations_and_seconds envTwoVideo "f.mkv").audio = none := by
  refine ⟨by decide, rfl, ?_, ?_⟩
  · have h := (extract_last_tagged_wins envTwoVideo "f.mkv"
      [jTrack "video" "0:00:01", jTrack "video" "0:00:02"] "" rfl rfl (by decide)).1
    rw [h]
    decide
  · have h := (extract_last_tagged_wins envTwoVideo "f.mkv"
      [jTrack "video" "0:00:01", jTrack "video" "0:00:02"] "" rfl rfl (by decide)).2
    rw [h]
    decide
